import Mathlib

/-!
Shallow embedding of the HR search engine (`utils/hr_search_engine.py`)
and its loading/schema check, together with theorems settling the spec's
claims about it.

Modelling conventions:
* Python `float` arithmetic is modelled over `ℚ` (exact arithmetic); the
  similarity values produced by the external sentence-transformer embedding
  composed with the FAISS inner product are abstracted as a function
  `embedSim : String → String → ℚ` (query text, role text) ↦ similarity,
  since the embedding model is an external collaborator.
* `math.exp` in the out-of-range age-decay branch of `_age_score` is
  transcendental, so it is abstracted as a parameter
  `decay : ℤ → ℤ → ℤ → ℚ`; the development shows its value never reaches
  any returned candidate.
* The FAISS `IndexFlatIP.search` call is external library code; it is
  modelled from the spec's Vector Index contract: positions ordered by
  descending similarity, ties broken by lower position, truncated to `n`.
* The `justification` presentation string of a candidate is not modelled
  (pure string formatting); the spec-level candidate fields `similarity`,
  `skill_ratio`, `age_score` and the row position are carried explicitly.
-/

namespace HRSearch

/-- Python `str.strip()` on the character list: drop leading and trailing
whitespace. -/
def stripChars (l : List Char) : List Char :=
  ((l.dropWhile Char.isWhitespace).reverse.dropWhile Char.isWhitespace).reverse

/-- Python `s.strip()`. -/
def pyStrip (s : String) : String := ⟨stripChars s.data⟩

/-- Python `s.lower()` (per-character lowering). -/
def pyLower (s : String) : String := ⟨s.data.map Char.toLower⟩

/-- Python `s.split(",")` on the character list: maximal split at every comma,
keeping empty pieces (so `"".split(",") = [""]`). -/
def splitCommaChars : List Char → List (List Char)
  | [] => [[]]
  | c :: cs =>
    match splitCommaChars cs with
    | [] => [[]]
    | r :: rs => if c = ',' then [] :: r :: rs else (c :: r) :: rs

/-- Python `s.split(",")`. -/
def pySplitComma (s : String) : List String :=
  (splitCommaChars s.data).map (fun l => ⟨l⟩)

/-- `ROLE_WEIGHT = 0.5` (hr_search_engine.py line 14). -/
def ROLE_WEIGHT : ℚ := 1/2

/-- `SKILL_WEIGHT = 0.3` (line 15). -/
def SKILL_WEIGHT : ℚ := 3/10

/-- `AGE_WEIGHT = 0.2` (line 16). -/
def AGE_WEIGHT : ℚ := 1/5

/-- `TOP_K_RAW = 20`, the raw FAISS retrieval size (line 17). -/
def TOP_K_RAW : ℕ := 20

/-- One prepared employee row: the four required columns plus the derived
`skill_set` column. -/
structure Record where
  name : String
  age : ℤ
  skillSet : Finset String
  roleText : String
deriving DecidableEq

/-- `_age_score(age, min_age, max_age)` (lines 21-26): `1.0` inside the range,
otherwise the exponential decay `exp(-|age - mid|/10)`, abstracted here as
`decay age minAge maxAge`. -/
def age_score (decay : ℤ → ℤ → ℤ → ℚ) (age minAge maxAge : ℤ) : ℚ :=
  if minAge ≤ age ∧ age ≤ maxAge then 1 else decay age minAge maxAge

/-- `_skills_match_ratio(candidate_skills, required_keywords)` (lines 29-34). -/
def skills_match_ratio (candidateSkills requiredKeywords : Finset String) : ℚ :=
  if requiredKeywords = ∅ then 1
  else if ¬ requiredKeywords ⊆ candidateSkills then 0
  else (requiredKeywords.card : ℚ) / ((max candidateSkills.card 1 : ℕ) : ℚ)

/-- `{s.strip().lower() for s in (skills or []) if s.strip()}` (line 83). -/
def requiredKeywordsOf (skills : List String) : Finset String :=
  ((skills.filter (fun s => pyStrip s ≠ "")).map
    (fun s => pyLower (pyStrip s))).toFinset

/-- The sorted list of a finite set of strings (Python's `sorted(skill_set)`),
computed by a stable insertion sort on any list representative; well defined
because sorting is invariant under permutation. -/
def sortedListOf (s : Finset String) : List String :=
  Quot.liftOn s.val (fun l => l.insertionSort (· ≤ ·)) (fun l₁ l₂ h =>
    List.eq_of_perm_of_sorted
      (((l₁.perm_insertionSort (· ≤ ·)).trans h).trans
        (l₂.perm_insertionSort (· ≤ ·)).symm)
      (List.sorted_insertionSort _ l₁) (List.sorted_insertionSort _ l₂))

/-- The candidate dictionary built at lines 115-130, enriched with the
spec-level ghost fields: the dataset row position and the three score
components (the spec's query-time Candidate carries them). -/
structure Candidate where
  pos : ℕ
  name : String
  age : ℤ
  skills : List String
  roles : String
  score : ℚ
  sim : ℚ
  skillRatio : ℚ
  ageScore : ℚ
deriving DecidableEq

/-- Pool ordering: descending similarity, ties broken by lower position. -/
def poolRel (p q : ℕ × ℚ) : Prop := q.2 < p.2 ∨ (p.2 = q.2 ∧ p.1 ≤ q.1)

instance : DecidableRel poolRel := fun p q =>
  inferInstanceAs (Decidable (q.2 < p.2 ∨ (p.2 = q.2 ∧ p.1 ≤ q.1)))

/-- Modelled from the spec: the Vector Index query
(`self._faiss_index.search(query_vec, TOP_K_RAW)`, external FAISS code):
given the similarity of the query to each stored row, return `(position,
similarity)` pairs descending by similarity, ties broken by original
insertion position, truncated to `n`. -/
def indexQuery (sims : List ℚ) (n : ℕ) : List (ℕ × ℚ) :=
  (List.insertionSort poolRel sims.enum).take n

/-- Descending final-score order used on candidates (`candidates.sort` with
`reverse=True` at line 132). -/
def scoreDesc (a b : Candidate) : Prop := b.score ≤ a.score

instance : DecidableRel scoreDesc := fun a b =>
  inferInstanceAs (Decidable (b.score ≤ a.score))

instance : IsTotal Candidate scoreDesc := ⟨fun a b => le_total b.score a.score⟩

instance : IsTrans Candidate scoreDesc := ⟨fun _ _ _ h1 h2 => le_trans h2 h1⟩

/-- The loop body of `search` (lines 92-130): walk the raw pool in retrieval
order, skip out-of-range positions (`idx == -1` padding), apply the skill
hard filter, compute `skill_ratio` and `age_s`, apply the age hard filter,
and build the candidate with
`final_score = ROLE_WEIGHT*sim + SKILL_WEIGHT*skill_ratio + AGE_WEIGHT*age_s`. -/
def rawCandidates (decay : ℤ → ℤ → ℤ → ℚ) (ds : List Record) (sims : List ℚ)
    (skills : List String) (ageMin ageMax : ℤ) : List Candidate :=
  let required := requiredKeywordsOf skills
  (indexQuery sims TOP_K_RAW).filterMap (fun p =>
    match ds.get? p.1 with
    | none => none
    | some row =>
      if required ≠ ∅ ∧ ¬ required ⊆ row.skillSet then none
      else
        let ratio := skills_match_ratio row.skillSet required
        let ageS := age_score decay row.age ageMin ageMax
        if ¬ (ageMin ≤ row.age ∧ row.age ≤ ageMax) then none
        else some
          { pos := p.1
            name := row.name
            age := row.age
            skills := sortedListOf row.skillSet
            roles := row.roleText
            score := ROLE_WEIGHT * p.2 + SKILL_WEIGHT * ratio + AGE_WEIGHT * ageS
            sim := p.2
            skillRatio := ratio
            ageScore := ageS })

/-- `EmployeeSearchEngine.search` (lines 55-133): encode the query (abstracted
by `embedSim` applied to each row's role text), retrieve the raw pool, filter
and score, sort by score descending (Python's stable sort), truncate to
`top_k`.  The `returnJson` flag mirrors the unused `return_json` parameter. -/
def search (embedSim : String → String → ℚ) (decay : ℤ → ℤ → ℤ → ℚ)
    (ds : List Record) (query : String) (skills : List String)
    (ageMin ageMax : ℤ) (topK : ℕ) (returnJson : Bool) : List Candidate :=
  let sims := ds.map (fun r => embedSim query r.roleText)
  (List.insertionSort scoreDesc
    (rawCandidates decay ds sims skills ageMin ageMax)).take topK

/-- The four required column names of `_load_and_prepare` (lines 141-146). -/
def requiredCols : Finset String :=
  {"Employee Name", "Employee Skills", "Employee Age",
   "Employee Roles & Responsibilities"}

/-- `{k.strip().lower() for k in str(s).split(",") if k.strip()}` (line 155):
the derived per-row skill set. -/
def deriveSkillSet (s : String) : Finset String :=
  (((pySplitComma s).filter (fun k => pyStrip k ≠ "")).map
    (fun k => pyLower (pyStrip k))).toFinset

/-- One raw tabular row: the values of the four required columns. -/
structure RawRow where
  name : String
  skillsText : String
  age : ℤ
  roleText : String

/-- Preparation of one row: derive the skill set from the comma-separated
skills text (line 152-156). -/
def prepareRow (row : RawRow) : Record :=
  { name := row.name, age := row.age,
    skillSet := deriveSkillSet row.skillsText, roleText := row.roleText }

/-- `_load_and_prepare` (lines 139-157) minus the external Excel I/O: given
the header column names and the raw rows, fail with the full set of missing
required columns if any is absent (`raise ValueError(f"Missing expected
columns: {missing}")`), else derive `skill_set` per row. -/
def load_and_prepare (cols : List String) (rows : List RawRow) :
    Except (Finset String) (List Record) :=
  let missing := requiredCols \ cols.toFinset
  if missing ≠ ∅ then .error missing
  else .ok (rows.map prepareRow)

/-! ### Supporting lemmas -/

/-- A returned-candidate characterization: any member of `rawCandidates` comes
from a pool entry whose record passed both hard filters, and its fields are
exactly the ones the loop body computes (with `age_score` already reduced to
`1` by the in-range branch). -/
theorem mem_rawCandidates_elim {decay : ℤ → ℤ → ℤ → ℚ} {ds : List Record}
    {sims : List ℚ} {skills : List String} {ageMin ageMax : ℤ} {c : Candidate}
    (h : c ∈ rawCandidates decay ds sims skills ageMin ageMax) :
    ∃ i s row, ds.get? i = some row ∧
      (requiredKeywordsOf skills ≠ ∅ → requiredKeywordsOf skills ⊆ row.skillSet) ∧
      ageMin ≤ row.age ∧ row.age ≤ ageMax ∧
      c = { pos := i
            name := row.name
            age := row.age
            skills := sortedListOf row.skillSet
            roles := row.roleText
            score := ROLE_WEIGHT * s +
              SKILL_WEIGHT * skills_match_ratio row.skillSet (requiredKeywordsOf skills) +
              AGE_WEIGHT * 1
            sim := s
            skillRatio := skills_match_ratio row.skillSet (requiredKeywordsOf skills)
            ageScore := 1 } := by
  simp only [rawCandidates, List.mem_filterMap] at h
  obtain ⟨p, _, hf⟩ := h
  rcases hds : ds.get? p.1 with _ | row
  · rw [hds] at hf; cases hf
  · rw [hds] at hf
    dsimp only at hf
    split_ifs at hf with h1 h2
    refine ⟨p.1, p.2, row, hds, ?_, h2.1, h2.2, ?_⟩
    · intro hne
      by_contra hsub
      exact h1 ⟨hne, hsub⟩
    · injection hf with hf
      subst hf
      simp [age_score, h2.1, h2.2]

/-- Membership in the returned list implies membership in the raw candidate
list. -/
theorem mem_search_elim {embedSim : String → String → ℚ}
    {decay : ℤ → ℤ → ℤ → ℚ} {ds : List Record} {query : String}
    {skills : List String} {ageMin ageMax : ℤ} {topK : ℕ} {rj : Bool}
    {c : Candidate}
    (h : c ∈ search embedSim decay ds query skills ageMin ageMax topK rj) :
    c ∈ rawCandidates decay ds (ds.map (fun r => embedSim query r.roleText))
        skills ageMin ageMax := by
  simp only [search] at h
  exact (List.mem_insertionSort scoreDesc).mp (List.mem_of_mem_take h)

/-- Membership in the sorted skill list agrees with membership in the skill
set. -/
theorem mem_sortedListOf {a : String} {s : Finset String} :
    a ∈ sortedListOf s ↔ a ∈ s := by
  rcases s with ⟨m, nd⟩
  induction m using Quot.inductionOn with
  | h l =>
    show a ∈ l.insertionSort (· ≤ ·) ↔ _
    rw [List.mem_insertionSort]
    rfl

/-- The sorted skill list has as many entries as the skill set has elements. -/
theorem length_sortedListOf (s : Finset String) :
    (sortedListOf s).length = s.card := by
  rcases s with ⟨m, nd⟩
  induction m using Quot.inductionOn with
  | h l =>
    show (l.insertionSort (· ≤ ·)).length = _
    rw [List.length_insertionSort]
    rfl

/-- The abstract decay function (the `math.exp` branch of `_age_score`) has no
influence on the surviving candidate list: the age hard filter removes every
candidate for which the decay branch would be taken. -/
theorem rawCandidates_decay_irrel (d₁ d₂ : ℤ → ℤ → ℤ → ℚ) (ds : List Record)
    (sims : List ℚ) (skills : List String) (ageMin ageMax : ℤ) :
    rawCandidates d₁ ds sims skills ageMin ageMax =
      rawCandidates d₂ ds sims skills ageMin ageMax := by
  unfold rawCandidates
  apply List.filterMap_congr
  intro p _
  rcases ds.get? p.1 with _ | row
  · rfl
  · dsimp only
    split_ifs with h1 h2
    · rfl
    · simp [age_score, h2.1, h2.2]
    · rfl

/-- Decay-independence lifted to the full query operation. -/
theorem search_decay_irrel (embedSim : String → String → ℚ)
    (d₁ d₂ : ℤ → ℤ → ℤ → ℚ) (ds : List Record) (query : String)
    (skills : List String) (ageMin ageMax : ℤ) (topK : ℕ) (rj : Bool) :
    search embedSim d₁ ds query skills ageMin ageMax topK rj =
      search embedSim d₂ ds query skills ageMin ageMax topK rj := by
  simp only [search]
  rw [rawCandidates_decay_irrel d₁ d₂]

/-! ### Claims -/

/-- C1: every Candidate returned by the query operation, when the required
skill set (trimmed, lowercased) is non-empty, carries all required skills in
its skill list; candidates failing the subset check were discarded. -/
theorem skill_hard_filter_complete (embedSim : String → String → ℚ)
    (decay : ℤ → ℤ → ℤ → ℚ) (ds : List Record) (query : String)
    (skills : List String) (ageMin ageMax : ℤ) (topK : ℕ) (rj : Bool)
    (c : Candidate) (hne : requiredKeywordsOf skills ≠ ∅)
    (hc : c ∈ search embedSim decay ds query skills ageMin ageMax topK rj) :
    ∀ s ∈ requiredKeywordsOf skills, s ∈ c.skills := by
  obtain ⟨i, sim, row, _, hsub, _, _, hc⟩ :=
    mem_rawCandidates_elim (mem_search_elim hc)
  subst hc
  intro s hs
  exact mem_sortedListOf.mpr (hsub hne hs)

/-- C2: every Candidate returned by the query operation has its age within
`[age_min, age_max]` inclusive; out-of-range records are discarded. -/
theorem age_hard_filter_complete (embedSim : String → String → ℚ)
    (decay : ℤ → ℤ → ℤ → ℚ) (ds : List Record) (query : String)
    (skills : List String) (ageMin ageMax : ℤ) (topK : ℕ) (rj : Bool)
    (c : Candidate)
    (hc : c ∈ search embedSim decay ds query skills ageMin ageMax topK rj) :
    ageMin ≤ c.age ∧ c.age ≤ ageMax := by
  obtain ⟨i, sim, row, _, _, h1, h2, hc⟩ :=
    mem_rawCandidates_elim (mem_search_elim hc)
  subst hc
  exact ⟨h1, h2⟩

/-- C3: every returned candidate's final score is
`0.5 × similarity + 0.3 × skill_ratio + 0.2 × age_score` with the fixed
constant weights; moreover its age score is `1`, so the score equals
`0.5 × similarity + 0.3 × skill_ratio + 0.2`, and the exponential-decay
branch is unreachable for returned results (the result list does not depend
on the decay function at all). -/
theorem score_formula (embedSim : String → String → ℚ)
    (decay : ℤ → ℤ → ℤ → ℚ) (ds : List Record) (query : String)
    (skills : List String) (ageMin ageMax : ℤ) (topK : ℕ) (rj : Bool)
    (c : Candidate)
    (hc : c ∈ search embedSim decay ds query skills ageMin ageMax topK rj) :
    c.ageScore = 1 ∧
    c.score = ROLE_WEIGHT * c.sim + SKILL_WEIGHT * c.skillRatio +
      AGE_WEIGHT * c.ageScore ∧
    c.score = ROLE_WEIGHT * c.sim + SKILL_WEIGHT * c.skillRatio + AGE_WEIGHT ∧
    ∀ d₂ : ℤ → ℤ → ℤ → ℚ,
      search embedSim d₂ ds query skills ageMin ageMax topK rj =
        search embedSim decay ds query skills ageMin ageMax topK rj := by
  obtain ⟨i, sim, row, _, _, h1, h2, hc⟩ :=
    mem_rawCandidates_elim (mem_search_elim hc)
  subst hc
  refine ⟨rfl, by ring, by ring, fun d₂ => search_decay_irrel _ d₂ decay _ _ _ _ _ _ _⟩

/-- Inserting a candidate that score-dominates every candidate satisfying `p`
puts it in front of all of them: filtering by `p` afterwards sees `x` first. -/
theorem filter_orderedInsert_pos (p : Candidate → Bool) (x : Candidate)
    (l : List Candidate) (hx : p x = true)
    (hall : ∀ y, p y = true → scoreDesc x y) :
    (l.orderedInsert scoreDesc x).filter p = x :: l.filter p := by
  induction l with
  | nil => simp [List.orderedInsert, hx]
  | cons y ys ih =>
    simp only [List.orderedInsert]
    by_cases hr : scoreDesc x y
    · rw [if_pos hr]
      simp [List.filter_cons, hx]
    · have hy : p y = false := by
        cases hpy : p y
        · rfl
        · exact absurd (hall y hpy) hr
      rw [if_neg hr]
      simp [List.filter_cons, hy, ih]

/-- Inserting a candidate not satisfying `p` leaves the `p`-filtered list
unchanged. -/
theorem filter_orderedInsert_neg (p : Candidate → Bool) (x : Candidate)
    (l : List Candidate) (hx : p x = false) :
    (l.orderedInsert scoreDesc x).filter p = l.filter p := by
  induction l with
  | nil => simp [List.orderedInsert, hx]
  | cons y ys ih =>
    simp only [List.orderedInsert]
    by_cases hr : scoreDesc x y
    · rw [if_pos hr]
      simp [List.filter_cons, hx]
    · rw [if_neg hr]
      simp [List.filter_cons, ih]

/-- Stability of the candidate sort (Python's `list.sort` is stable): the
candidates of any fixed final score appear in the sorted list in exactly the
order they had before sorting. -/
theorem filter_score_insertionSort (s : ℚ) (l : List Candidate) :
    (List.insertionSort scoreDesc l).filter (fun c => decide (c.score = s)) =
      l.filter (fun c => decide (c.score = s)) := by
  induction l with
  | nil => rfl
  | cons x xs ih =>
    simp only [List.insertionSort]
    by_cases hx : x.score = s
    · rw [filter_orderedInsert_pos _ x _ (by simp [hx]) ?hall, ih]
      · simp [List.filter_cons, hx]
      case hall =>
        intro y hy
        have hys : y.score = s := by simpa using hy
        show y.score ≤ x.score
        rw [hx, hys]
    · rw [filter_orderedInsert_neg _ x _ (by simp [hx]), ih]
      simp [List.filter_cons, hx]

/-- C4 (amended): the returned list is sorted by final score non-increasing,
and candidates of equal final score appear in raw-pool retrieval order (the
order in which survivors were scored, i.e. descending similarity), which is
what Python's stable sort preserves — not necessarily in dataset row order. -/
theorem result_ordering (embedSim : String → String → ℚ)
    (decay : ℤ → ℤ → ℤ → ℚ) (ds : List Record) (query : String)
    (skills : List String) (ageMin ageMax : ℤ) (topK : ℕ) (rj : Bool) :
    List.Sorted scoreDesc
      (search embedSim decay ds query skills ageMin ageMax topK rj) ∧
    ∀ s : ℚ,
      (search embedSim decay ds query skills ageMin ageMax topK rj).filter
          (fun c => decide (c.score = s)) <+:
        (rawCandidates decay ds (ds.map (fun r => embedSim query r.roleText))
            skills ageMin ageMax).filter (fun c => decide (c.score = s)) := by
  constructor
  · simp only [search]
    exact List.Pairwise.sublist (List.take_sublist _ _)
      (List.sorted_insertionSort scoreDesc _)
  · intro s
    simp only [search]
    have h1 := List.IsPrefix.filter (fun c => decide (c.score = s))
      (List.take_prefix topK
        (List.insertionSort scoreDesc
          (rawCandidates decay ds (ds.map (fun r => embedSim query r.roleText))
            skills ageMin ageMax)))
    rwa [filter_score_insertionSort] at h1

deriving instance DecidableEq for Except

unseal Rat.mul Rat.inv Rat.add Rat.sub Rat.ofScientific

/-- A two-row dataset exhibiting a final-score tie: row 0 has the higher skill
ratio, row 1 the higher similarity, and the weighted scores coincide. -/
def tieDs : List Record :=
  [{ name := "A", age := 30, skillSet := {"a", "b"}, roleText := "r0" },
   { name := "B", age := 30, skillSet := {"a", "b", "c", "d", "e"},
     roleText := "r1" }]

/-- Similarities for `tieDs`: row 0 scores `2/5`, row 1 scores `29/50`. -/
def tieEmbed : String → String → ℚ := fun _ t => if t = "r0" then 2/5 else 29/50

/-- C4 counterexample: on `tieDs` with required skill `"a"`, both returned
candidates have final score `11/20`, yet the candidate from dataset row 1
precedes the one from row 0 — ties are NOT broken by lower original dataset
row position (they follow the similarity-ordered raw pool instead). -/
theorem result_ordering_tie_counterexample :
    ((search tieEmbed (fun _ _ _ => 0) tieDs "q" ["a"] 18 65 5 false).map
        Candidate.pos = [1, 0]) ∧
    ((search tieEmbed (fun _ _ _ => 0) tieDs "q" ["a"] 18 65 5 false).map
        Candidate.score = [11/20, 11/20]) := by decide

/-- C5: the returned list never exceeds `top_k` entries nor `TOP_K_RAW`
entries, whatever the dataset size. -/
theorem cap_property (embedSim : String → String → ℚ)
    (decay : ℤ → ℤ → ℤ → ℚ) (ds : List Record) (query : String)
    (skills : List String) (ageMin ageMax : ℤ) (topK : ℕ) (rj : Bool)
    (h : 0 < topK) :
    (search embedSim decay ds query skills ageMin ageMax topK rj).length ≤
      topK ∧
    (search embedSim decay ds query skills ageMin ageMax topK rj).length ≤
      TOP_K_RAW := by
  constructor
  · simp only [search]
    exact List.length_take_le _ _
  · simp only [search]
    calc (List.take topK (List.insertionSort scoreDesc
          (rawCandidates decay ds (ds.map (fun r => embedSim query r.roleText))
            skills ageMin ageMax))).length
        ≤ (List.insertionSort scoreDesc
            (rawCandidates decay ds
              (ds.map (fun r => embedSim query r.roleText))
              skills ageMin ageMax)).length := List.length_take_le' _ _
      _ = (rawCandidates decay ds (ds.map (fun r => embedSim query r.roleText))
            skills ageMin ageMax).length := List.length_insertionSort _ _
      _ ≤ (indexQuery (ds.map (fun r => embedSim query r.roleText))
            TOP_K_RAW).length := by
          simp only [rawCandidates]
          exact List.length_filterMap_le _ _
      _ ≤ TOP_K_RAW := by
          simp only [indexQuery]
          exact List.length_take_le _ _

/-- C6: the query operation is deterministic — two runs over the same dataset
and inputs return the same ordered result list, provided the external
embedding function returns the same similarities for the same texts. -/
theorem search_deterministic (e₁ e₂ : String → String → ℚ)
    (decay : ℤ → ℤ → ℤ → ℚ) (ds : List Record) (query : String)
    (skills : List String) (ageMin ageMax : ℤ) (topK : ℕ) (rj : Bool)
    (h : ∀ r ∈ ds, e₁ query r.roleText = e₂ query r.roleText) :
    search e₁ decay ds query skills ageMin ageMax topK rj =
      search e₂ decay ds query skills ageMin ageMax topK rj := by
  simp only [search]
  rw [List.map_congr_left h]

/-- C7: loading fails with a schema error exactly when some required column is
absent, and the reported set is the set of ALL missing required columns. -/
theorem schema_error_iff (cols : List String) (rows : List RawRow) :
    ((∃ e, load_and_prepare cols rows = .error e) ↔
      ¬ requiredCols ⊆ cols.toFinset) ∧
    ∀ e, load_and_prepare cols rows = .error e →
      e = requiredCols \ cols.toFinset := by
  simp only [load_and_prepare]
  by_cases h : requiredCols \ cols.toFinset = ∅
  · rw [if_neg (not_not_intro h)]
    constructor
    · constructor
      · rintro ⟨e, he⟩
        cases he
      · intro hsub
        exact absurd (Finset.sdiff_eq_empty_iff_subset.mp h) hsub
    · intro e he
      cases he
  · rw [if_pos h]
    refine ⟨⟨fun _ => ?_, fun _ => ⟨_, rfl⟩⟩, ?_⟩
    · exact fun hsub => h (Finset.sdiff_eq_empty_iff_subset.mpr hsub)
    · intro e he
      injection he with he
      exact he.symm

/-- Modelled from the spec: "if `required_skills` is empty, `skill_ratio =
1.0` for every survivor and no row is discarded on skill grounds" — the
pipeline with the skill filter disabled, keeping every age-passing pool entry
with skill ratio `1`. -/
def noSkillFilterCandidates (decay : ℤ → ℤ → ℤ → ℚ) (ds : List Record)
    (sims : List ℚ) (ageMin ageMax : ℤ) : List Candidate :=
  (indexQuery sims TOP_K_RAW).filterMap (fun p =>
    match ds.get? p.1 with
    | none => none
    | some row =>
      if ageMin ≤ row.age ∧ row.age ≤ ageMax then
        some
          { pos := p.1
            name := row.name
            age := row.age
            skills := sortedListOf row.skillSet
            roles := row.roleText
            score := ROLE_WEIGHT * p.2 + SKILL_WEIGHT * 1 + AGE_WEIGHT * 1
            sim := p.2
            skillRatio := 1
            ageScore := 1 }
      else none)

/-- C8: with empty required skills no candidate is discarded on skill grounds
and every survivor has skill ratio `1`; with non-empty required skills every
survivor (which passed the subset check) has skill ratio
`|required| / max(|skill_set|, 1)`. -/
theorem empty_skills_no_filter (decay : ℤ → ℤ → ℤ → ℚ) (ds : List Record)
    (sims : List ℚ) (skills : List String) (ageMin ageMax : ℤ) :
    (requiredKeywordsOf skills = ∅ →
      rawCandidates decay ds sims skills ageMin ageMax =
        noSkillFilterCandidates decay ds sims ageMin ageMax) ∧
    (requiredKeywordsOf skills ≠ ∅ →
      ∀ c ∈ rawCandidates decay ds sims skills ageMin ageMax,
        c.skillRatio = ((requiredKeywordsOf skills).card : ℚ) /
          ((max c.skills.length 1 : ℕ) : ℚ)) := by
  constructor
  · intro hreq
    simp only [rawCandidates, noSkillFilterCandidates]
    apply List.filterMap_congr
    intro p _
    rcases ds.get? p.1 with _ | row
    · rfl
    · dsimp only
      rw [hreq]
      rw [if_neg (by simp)]
      split_ifs with hage
      · simp [skills_match_ratio, age_score, hage.1, hage.2]
      · rfl
  · intro hne c hc
    obtain ⟨i, sim, row, _, hsub, _, _, hc⟩ := mem_rawCandidates_elim hc
    subst hc
    show skills_match_ratio row.skillSet (requiredKeywordsOf skills) = _
    rw [skills_match_ratio, if_neg hne, if_neg (not_not_intro (hsub hne))]
    simp [length_sortedListOf]

/-- C9: the skill-match ratio is total and bounded — it always lies in
`[0, 1]`, its denominator `max(|candidate_skills|, 1)` is positive (no
division by zero), and when the subset check passes the numerator is at most
the candidate's skill count. -/
theorem skills_match_ratio_bounds (candidateSkills requiredKeywords : Finset String) :
    0 ≤ skills_match_ratio candidateSkills requiredKeywords ∧
    skills_match_ratio candidateSkills requiredKeywords ≤ 1 ∧
    (0 : ℚ) < ((max candidateSkills.card 1 : ℕ) : ℚ) ∧
    (requiredKeywords ≠ ∅ → requiredKeywords ⊆ candidateSkills →
      requiredKeywords.card ≤ candidateSkills.card) := by
  have hden : (0 : ℚ) < ((max candidateSkills.card 1 : ℕ) : ℚ) := by
    have : (1 : ℕ) ≤ max candidateSkills.card 1 := le_max_right _ _
    exact_mod_cast Nat.lt_of_lt_of_le Nat.zero_lt_one this
  refine ⟨?_, ?_, hden, fun _ h => Finset.card_le_card h⟩
  · rw [skills_match_ratio]
    split_ifs
    · exact zero_le_one
    · exact div_nonneg (Nat.cast_nonneg _) hden.le
    · exact le_refl 0
  · rw [skills_match_ratio]
    split_ifs with h1 h2
    · exact le_refl 1
    · rw [div_le_one hden]
      have hcard : requiredKeywords.card ≤ candidateSkills.card :=
        Finset.card_le_card h2
      have : requiredKeywords.card ≤ max candidateSkills.card 1 :=
        le_trans hcard (le_max_left _ _)
      exact_mod_cast this
    · exact zero_le_one

/-- C10: the `return_json` parameter has no effect on the result of the query
operation. -/
theorem return_json_no_effect (embedSim : String → String → ℚ)
    (decay : ℤ → ℤ → ℤ → ℚ) (ds : List Record) (query : String)
    (skills : List String) (ageMin ageMax : ℤ) (topK : ℕ) :
    search embedSim decay ds query skills ageMin ageMax topK true =
      search embedSim decay ds query skills ageMin ageMax topK false := rfl

/-! ### Concrete instantiations -/

/-- A one-row example dataset. -/
def exDs : List Record :=
  [{ name := "A", age := 30, skillSet := {"a"}, roleText := "r" }]

/-- An example embedding-similarity function (constant `1`). -/
def exEmbed : String → String → ℚ := fun _ _ => 1

/-- An example decay function. -/
def exDecay : ℤ → ℤ → ℤ → ℚ := fun _ _ _ => 0

/-- The candidate the example query returns. -/
def exCand : Candidate :=
  { pos := 0, name := "A", age := 30, skills := ["a"], roles := "r",
    score := 1, sim := 1, skillRatio := 1, ageScore := 1 }

/-- Example header row lacking the `Employee Age` column. -/
def exCols : List String :=
  ["Employee Name", "Employee Skills", "Employee Roles & Responsibilities"]

/-- Witness for C1 at a concrete dataset and query. -/
theorem skill_hard_filter_complete_witness : "a" ∈ exCand.skills :=
  skill_hard_filter_complete exEmbed exDecay exDs "q" ["a"] 18 65 5 false
    exCand (by decide) (by decide) "a" (by decide)

/-- Witness for C2 at a concrete dataset and query. -/
theorem age_hard_filter_complete_witness :
    (18 : ℤ) ≤ exCand.age ∧ exCand.age ≤ 65 :=
  age_hard_filter_complete exEmbed exDecay exDs "q" ["a"] 18 65 5 false
    exCand (by decide)

/-- Witness for C3 at a concrete dataset and query. -/
theorem score_formula_witness :
    exCand.ageScore = 1 ∧
    exCand.score = ROLE_WEIGHT * exCand.sim + SKILL_WEIGHT * exCand.skillRatio +
      AGE_WEIGHT * exCand.ageScore ∧
    exCand.score = ROLE_WEIGHT * exCand.sim + SKILL_WEIGHT * exCand.skillRatio +
      AGE_WEIGHT ∧
    search exEmbed (fun _ _ _ => 1/3) exDs "q" ["a"] 18 65 5 false =
      search exEmbed exDecay exDs "q" ["a"] 18 65 5 false :=
  have h := score_formula exEmbed exDecay exDs "q" ["a"] 18 65 5 false exCand
    (by decide)
  ⟨h.1, h.2.1, h.2.2.1, h.2.2.2 (fun _ _ _ => 1/3)⟩

/-- Witness for C5 at a concrete dataset and query. -/
theorem cap_property_witness :
    (search exEmbed exDecay exDs "q" ["a"] 18 65 5 false).length ≤ 5 ∧
    (search exEmbed exDecay exDs "q" ["a"] 18 65 5 false).length ≤ TOP_K_RAW :=
  cap_property exEmbed exDecay exDs "q" ["a"] 18 65 5 false (by decide)

/-- Witness for C6 at a concrete dataset and query (two runs with the same
embedding outputs). -/
theorem search_deterministic_witness :
    search exEmbed exDecay exDs "q" ["a"] 18 65 5 false =
      search exEmbed exDecay exDs "q" ["a"] 18 65 5 false :=
  search_deterministic exEmbed exEmbed exDecay exDs "q" ["a"] 18 65 5 false
    (fun _ _ => rfl)

/-- Witness for C7 at a concrete header row lacking `Employee Age`. -/
theorem schema_error_iff_witness :
    (∃ e, load_and_prepare exCols [] = .error e) ∧
    ({"Employee Age"} : Finset String) = requiredCols \ exCols.toFinset :=
  ⟨(schema_error_iff exCols []).1.mpr (by decide),
   (schema_error_iff exCols []).2 {"Employee Age"} (by decide)⟩

/-- Witness for C8: the empty-skills branch at one input, the non-empty
branch at another. -/
theorem empty_skills_no_filter_witness :
    (rawCandidates exDecay exDs [1] [] 18 65 =
      noSkillFilterCandidates exDecay exDs [1] 18 65) ∧
    exCand.skillRatio = ((requiredKeywordsOf ["a"]).card : ℚ) /
      ((max exCand.skills.length 1 : ℕ) : ℚ) :=
  ⟨(empty_skills_no_filter exDecay exDs [1] [] 18 65).1 (by decide),
   (empty_skills_no_filter exDecay exDs [1] ["a"] 18 65).2 (by decide)
     exCand (by decide)⟩

/-- Witness for C9 at concrete skill sets. -/
theorem skills_match_ratio_bounds_witness :
    0 ≤ skills_match_ratio {"a", "b"} {"a"} ∧
    skills_match_ratio {"a", "b"} {"a"} ≤ 1 ∧
    (0 : ℚ) < ((max ({"a", "b"} : Finset String).card 1 : ℕ) : ℚ) ∧
    ({"a"} : Finset String).card ≤ ({"a", "b"} : Finset String).card :=
  have h := skills_match_ratio_bounds {"a", "b"} {"a"}
  ⟨h.1, h.2.1, h.2.2.1, h.2.2.2 (by decide) (by decide)⟩

end HRSearch
